import Mathlib

/-!
Verification of `scripts/auth-proxy.py`, a local forwarding proxy that
injects a `Proxy-Authorization` credential into client requests and relays
them to an authenticated upstream proxy.

The embedding is byte-faithful for the ASCII protocol data the program
handles: Python `bytes`/`str` values are modelled as `List Char` (the
program decodes with `errors='replace'` and re-encodes, which is the
identity on the ASCII header data relevant here), sockets are modelled as
lists of received chunks (a list element is one successful `recv`; an
exhausted list or an empty chunk is end-of-stream), and the observable
effects of one `handle_client` run (bytes written to each peer, number of
`close()` calls on each socket, whether the bidirectional relay was
entered) are collected in a result record.
-/

namespace AuthProxy

/-- The CRLF line separator `\r\n`. -/
def CRLF : List Char := ['\r', '\n']

/-- The end-of-headers terminator `\r\n\r\n`. -/
def TERM : List Char := ['\r', '\n', '\r', '\n']

/-- Python `pat in l` for byte strings: does `pat` occur as a contiguous
subsequence of `l`? -/
def containsSeq (pat : List Char) (l : List Char) : Bool :=
  if pat.isPrefixOf l then true
  else
    match l with
    | [] => false
    | _ :: rest => containsSeq pat rest

/-- Python `l.split(b"\r\n")`: split at every (leftmost, non-overlapping)
occurrence of CRLF.  Always returns a non-empty list. -/
def splitOnCRLF : List Char → List (List Char)
  | [] => [[]]
  | '\r' :: '\n' :: rest => [] :: splitOnCRLF rest
  | c :: rest =>
    match splitOnCRLF rest with
    | [] => [[c]]
    | l :: ls => (c :: l) :: ls

/-- Python `response.split(b"\r\n")[0]`: the bytes before the first CRLF
(the whole input when no CRLF occurs). -/
def takeUntilCRLF : List Char → List Char
  | [] => []
  | '\r' :: '\n' :: _ => []
  | c :: rest => c :: takeUntilCRLF rest

/-- Python `request[:request.find(b"\r\n\r\n")]` and
`request[request.find(b"\r\n\r\n") + 4:]`: split the buffer at the first
occurrence of the end-of-headers terminator into (head, body). -/
def splitAtTerm : List Char → List Char × List Char
  | [] => ([], [])
  | c :: rest =>
    if TERM.isPrefixOf (c :: rest) then ([], (c :: rest).drop 4)
    else
      let p := splitAtTerm rest
      (c :: p.1, p.2)

/-- The accumulation loops in `handle_client` (lines 64-70 and 104-109):
keep receiving chunks until the accumulated buffer contains the
end-of-headers terminator; an exhausted chunk list or an empty chunk is
end-of-stream and stops the loop (all later `recv` calls would return
empty again, hence the remaining-chunk list is empty in that case).
Returns (accumulated buffer, chunks not yet consumed). -/
def readUntilTerm (chunks : List (List Char)) (acc : List Char) :
    List Char × List (List Char) :=
  if containsSeq TERM acc then (acc, chunks)
  else
    match chunks with
    | [] => (acc, [])
    | c :: rest => if c.isEmpty then (acc, []) else readUntilTerm rest (acc ++ c)

/-- The streaming loops (lines 46-50 and 142-146): forward chunks from a
socket until end-of-stream (exhaustion or an empty chunk). -/
def drainChunks : List (List Char) → List Char
  | [] => []
  | c :: rest => if c.isEmpty then [] else c ++ drainChunks rest

/-- `forward_data` (lines 43-58): pump every chunk of the source to the
destination until end-of-stream.  Its `finally` block then closes both
sockets (one `close()` call on each of the two sockets per invocation). -/
def forward_data (source : List (List Char)) : List Char :=
  drainChunks source

/-- Python `line.lower().startswith("proxy-authorization:")`
(lines 93 and 131). -/
def isAuthLine (l : List Char) : Bool :=
  "proxy-authorization:".data.isPrefixOf (l.map Char.toLower)

/-- The header line injected by `handle_client`
(`f"Proxy-Authorization: {auth_header}"`, lines 98 and 136). -/
def authLine (a : List Char) : List Char :=
  "Proxy-Authorization: ".data ++ a

/-- The header rewriting performed identically in both branches of
`handle_client` (lines 89-98 and 128-136): keep the request line, drop
every header line whose lowercasing starts with `proxy-authorization:`,
and, when a credential header is configured, `insert` it at index 1
(directly after the request line). -/
def rewriteHeaders (firstLine : List Char) (rest : List (List Char))
    (auth : Option (List Char)) : List (List Char) :=
  let newHeaders := firstLine :: rest.filter (fun l => !(isAuthLine l))
  match auth with
  | none => newHeaders
  | some a => newHeaders.insertIdx 1 (authLine a)

/-- The base64 alphabet used by `base64.b64encode`. -/
def b64Chars : List Char :=
  "ABCDEFGHIJKLMNOPQRSTUVWXYZabcdefghijklmnopqrstuvwxyz0123456789+/".data

/-- Character of the base64 alphabet at a 6-bit index. -/
def b64At (n : Nat) : Char := b64Chars.getD n '?'

/-- Standard base64 encoding with `=` padding (the behaviour of Python's
`base64.b64encode` on a byte string). -/
def b64Encode : List Nat → List Char
  | [] => []
  | [b1] => [b64At (b1 / 4), b64At (b1 % 4 * 16), '=', '=']
  | [b1, b2] => [b64At (b1 / 4), b64At (b1 % 4 * 16 + b2 / 16),
      b64At (b2 % 16 * 4), '=']
  | b1 :: b2 :: b3 :: rest =>
    b64At (b1 / 4) :: b64At (b1 % 4 * 16 + b2 / 16) ::
      b64At (b2 % 16 * 4 + b3 / 64) :: b64At (b3 % 64) :: b64Encode rest

/-- Python `str.encode()` on the ASCII credential strings handled here. -/
def strBytes (l : List Char) : List Nat := l.map Char.toNat

/-- `create_auth_header` (lines 35-41): `None` when either field is falsy
(absent or the empty string), otherwise `"Basic " + base64(username + ":"
+ password)`. -/
def create_auth_header (username password : Option (List Char)) :
    Option (List Char) :=
  match username, password with
  | some u, some p =>
    if u.isEmpty || p.isEmpty then none
    else some ("Basic ".data ++ b64Encode (strBytes (u ++ ':' :: p)))
  | _, _ => none

/-- The upstream target dictionary built by `parse_proxy_url`
(lines 28-33). -/
structure UpstreamTarget where
  host : Option (List Char)
  port : Nat
  username : Option (List Char)
  password : Option (List Char)
deriving DecidableEq, Repr

/-- Scheme characters accepted by `urllib.parse` (letters, digits,
`+`, `-`, `.`). -/
def isSchemeChar (c : Char) : Bool :=
  c.isAlpha || c.isDigit || c == '+' || c == '-' || c == '.'

/-- Python `str.partition(ch)` restricted to what the URL parser needs:
the part before the first occurrence of `ch`, and the part after it
(`none` when `ch` does not occur). -/
def partitionAt (ch : Char) (l : List Char) : List Char × Option (List Char) :=
  let pre := l.takeWhile (fun c => c != ch)
  if pre.length = l.length then (l, none)
  else (pre, some (l.drop (pre.length + 1)))

/-- Python `str.rpartition(ch)`: the part before the last occurrence of
`ch` (`none` when `ch` does not occur) and the part after it. -/
def rpartitionAt (ch : Char) (l : List Char) : Option (List Char) × List Char :=
  let r := l.reverse
  let tail := r.takeWhile (fun c => c != ch)
  if tail.length = r.length then (none, l)
  else (some ((r.drop (tail.length + 1)).reverse), tail.reverse)

/-- The scheme-stripping step of `urllib.parse.urlsplit`: when the input
has the shape `scheme:rest` with a non-empty scheme of scheme characters
starting with a letter, return `rest`; otherwise the input unchanged. -/
def splitScheme (url : List Char) : List Char :=
  match url.dropWhile (fun c => c != ':') with
  | [] => url
  | _ :: rest =>
    let pre := url.takeWhile (fun c => c != ':')
    if !pre.isEmpty && pre.all isSchemeChar &&
        (match pre with | c :: _ => c.isAlpha | [] => false)
    then rest else url

/-- Characters that do not end the netloc (`/`, `?` and `#` do). -/
def netlocOkChar (c : Char) : Bool :=
  c != '/' && c != '?' && c != '#'

/-- The netloc of `urllib.parse.urlsplit`: present only when the
(scheme-stripped) input starts with `//`, and extends to the first `/`,
`?` or `#`. -/
def extractNetloc (u : List Char) : List Char :=
  match u with
  | '/' :: '/' :: rest => rest.takeWhile netlocOkChar
  | _ => []

/-- Numeric value of a decimal digit string. -/
def digitsVal (l : List Char) : Nat :=
  l.foldl (fun a c => 10 * a + (c.toNat - 48)) 0

/-- The `port` property of `urllib.parse`'s result: a present, non-empty
port string must be a decimal number between 0 and 65535, anything else
raises `ValueError` (modelled as `Except.error`; Python's `int` also
accepts signs/whitespace/underscores, which are outside the URL grammar
treated here). -/
def parsePort (ps : List Char) : Except Unit Nat :=
  if ps.all Char.isDigit && !ps.isEmpty then
    if digitsVal ps ≤ 65535 then Except.ok (digitsVal ps) else Except.error ()
  else Except.error ()

/-- Netloc of the URL as `parse_proxy_url` sees it. -/
def netlocOf (url : List Char) : List Char :=
  extractNetloc (splitScheme url)

/-- The host-and-port part of the netloc: everything after the last `@`
(the IPv6 bracket syntax is outside the grammar treated here). -/
def hostinfoOf (url : List Char) : List Char :=
  (rpartitionAt '@' (netlocOf url)).2

/-- The raw port component: what follows the first `:` of the host-info
part, when present. -/
def rawPortOf (url : List Char) : Option (List Char) :=
  (partitionAt ':' (hostinfoOf url)).2

/-- The `parsed.port` access in `parse_proxy_url` line 30: `none` when the
port component is missing or empty, the numeric value when valid, an
exception otherwise. -/
def portOf (url : List Char) : Except Unit (Option Nat) :=
  match rawPortOf url with
  | none => Except.ok none
  | some [] => Except.ok none
  | some ps => (parsePort ps).map some

/-- The `parsed.hostname` access: the part of the host-info before the
first `:`, lowercased, `none` when empty. -/
def hostnameOf (url : List Char) : Option (List Char) :=
  let h := (partitionAt ':' (hostinfoOf url)).1
  if h.isEmpty then none else some (h.map Char.toLower)

/-- The `parsed.username` / `parsed.password` accesses: the part of the
netloc before the last `@`, split at its first `:`; both `none` when the
netloc has no `@`. -/
def userPassOf (url : List Char) : Option (List Char) × Option (List Char) :=
  match (rpartitionAt '@' (netlocOf url)).1 with
  | none => (none, none)
  | some ui => ((partitionAt ':' ui).1, (partitionAt ':' ui).2)

/-- `parse_proxy_url` (lines 23-33): `None` for a falsy (empty) input,
otherwise the dictionary of `urlparse` accessors with
`parsed.port or 3128` as the port (so an absent port and a port parsing
to `0` both become 3128); an invalid port component propagates
`urlparse`'s `ValueError` (`Except.error`). -/
def parse_proxy_url (url : List Char) : Except Unit (Option UpstreamTarget) :=
  if url.isEmpty then Except.ok none
  else
    match portOf url with
    | Except.error e => Except.error e
    | Except.ok p =>
      Except.ok (some {
        host := hostnameOf url
        port := match p with
          | none => 3128
          | some 0 => 3128
          | some n => n
        username := (userPassOf url).1
        password := (userPassOf url).2 })

deriving instance DecidableEq for Except

/-- Observable effects of one `handle_client` run: the bytes sent to the
upstream socket, the bytes sent to the client socket, how many `close()`
calls each socket receives, and whether the bidirectional relay was
started. -/
structure HandlerResult where
  sentToUpstream : List Char
  sentToClient : List Char
  clientCloses : Nat
  upstreamCloses : Nat
  enteredRelay : Bool
deriving DecidableEq, Repr

/-- First line of the parsed client request
(`lines[0]` after splitting the head at CRLF, lines 73-78). -/
def requestFirstLine (clientChunks : List (List Char)) : List Char :=
  (splitOnCRLF (splitAtTerm (readUntilTerm clientChunks []).1).1).headD []

/-- `handle_client` (lines 60-156) on the exception-free executions the
pure model covers.  The client and upstream sockets are the given chunk
lists.  Close accounting: the early end-of-stream return closes only the
client (line 68); the plain branch and the CONNECT-rejection branch close
each socket once (lines 124-125, 148-149); the CONNECT relay branch runs
`forward_data` in both directions and each of the two threads closes both
sockets in its `finally` block (lines 53-58), so each socket is closed
twice. -/
def handle_client (clientChunks upstreamChunks : List (List Char))
    (authHeader : Option (List Char)) : HandlerResult :=
  let request := (readUntilTerm clientChunks []).1
  let clientRest := (readUntilTerm clientChunks []).2
  if containsSeq TERM request then
    let headStr := (splitAtTerm request).1
    let body := (splitAtTerm request).2
    let lines := splitOnCRLF headStr
    let firstLine := lines.headD []
    let newRequest :=
      List.intercalate CRLF (rewriteHeaders firstLine (lines.drop 1) authHeader)
        ++ TERM
    if "CONNECT".data.isPrefixOf firstLine then
      let response := (readUntilTerm upstreamChunks []).1
      let upRest := (readUntilTerm upstreamChunks []).2
      if containsSeq "200".data (takeUntilCRLF response) then
        { sentToUpstream := newRequest ++ body ++ forward_data clientRest
          sentToClient := response ++ forward_data upRest
          clientCloses := 2
          upstreamCloses := 2
          enteredRelay := true }
      else
        { sentToUpstream := newRequest ++ body
          sentToClient := response
          clientCloses := 1
          upstreamCloses := 1
          enteredRelay := false }
    else
      { sentToUpstream := newRequest ++ body
        sentToClient := drainChunks upstreamChunks
        clientCloses := 1
        upstreamCloses := 1
        enteredRelay := false }
  else
    { sentToUpstream := []
      sentToClient := []
      clientCloses := 1
      upstreamCloses := 0
      enteredRelay := false }

/-- Modelled from the spec: the numeric status code field of a status
line, i.e. the second whitespace-separated token, read as a decimal
number (used to state C1, which the spec phrases in terms of "the numeric
status code field"; the program itself never parses this field). -/
def statusTokenOf (line : List Char) : List Char :=
  ((line.dropWhile (fun c => c != ' ')).drop 1).takeWhile (fun c => c != ' ')

/-- Modelled from the spec: the status code as a number, when the status
token is a non-empty digit string. -/
def specStatusCode (line : List Char) : Option Nat :=
  if (statusTokenOf line).all Char.isDigit && !(statusTokenOf line).isEmpty
  then some (digitsVal (statusTokenOf line)) else none

/-- The bytes `handle_client` forwards to the upstream for a parsed
request: the rewritten head, the terminator, and the body bytes. -/
def rewrittenRequestOf (clientChunks : List (List Char))
    (auth : Option (List Char)) : List Char :=
  List.intercalate CRLF
      (rewriteHeaders (requestFirstLine clientChunks)
        ((splitOnCRLF (splitAtTerm (readUntilTerm clientChunks []).1).1).drop 1) auth)
    ++ TERM ++ (splitAtTerm (readUntilTerm clientChunks []).1).2

/-- Modelled from the spec: host characters of the URL grammar
`scheme://[user[:pass]@]host[:port]` (no separator or netloc-ending
characters, no IPv6 bracket). -/
def hostChar (c : Char) : Bool :=
  netlocOkChar c && c != ':' && c != '@' && c != '['

/-- Modelled from the spec: username characters of the URL grammar. -/
def userChar (c : Char) : Bool :=
  netlocOkChar c && c != ':' && c != '@'

/-- Modelled from the spec: password characters of the URL grammar. -/
def passChar (c : Char) : Bool :=
  netlocOkChar c && c != '@'

/-- Modelled from the spec: the `[user[:pass]@]` part of the URL grammar. -/
def mkUserinfo : Option (List Char × Option (List Char)) → List Char
  | none => []
  | some (u, none) => u ++ ['@']
  | some (u, some pw) => u ++ ':' :: pw ++ ['@']

/-- Modelled from the spec: the `host[:port]` part of the URL grammar. -/
def mkHostPort (h : List Char) (po : Option (List Char)) : List Char :=
  h ++ (match po with | none => [] | some ps => ':' :: ps)

/-- Modelled from the spec: a URL of the form
`scheme://[user[:pass]@]host[:port]`. -/
def mkProxyUrl (s : List Char) (cred : Option (List Char × Option (List Char)))
    (h : List Char) (po : Option (List Char)) : List Char :=
  s ++ ':' :: '/' :: '/' :: (mkUserinfo cred ++ mkHostPort h po)

/-! ### Basic facts about the byte-string utilities -/

theorem containsSeq_iff (pat l : List Char) : containsSeq pat l = true ↔ pat <:+: l := by
  induction l with
  | nil =>
    rw [containsSeq]
    constructor
    · intro h
      split at h
      · next hp => exact ( List.isPrefixOf_iff_prefix.mp hp).isInfix
      · exact absurd h (by simp)
    · rintro ⟨s, t, he⟩
      simp only [List.append_eq_nil] at he
      obtain ⟨⟨_, h2⟩, _⟩ := he
      subst h2
      decide
  | cons c rest ih =>
    rw [containsSeq, List.infix_cons_iff]
    cases hp : pat.isPrefixOf (c :: rest) with
    | true =>
      simp only [if_true]
      constructor
      · intro _
        exact Or.inl ( List.isPrefixOf_iff_prefix.mp hp)
      · intro _
        trivial
    | false =>
      simp only [Bool.false_eq_true, if_false]
      rw [ih]
      constructor
      · exact Or.inr
      · rintro (h | h)
        · have hcontra := List.isPrefixOf_iff_prefix.mpr h
          rw [hp] at hcontra
          exact absurd hcontra (by simp)
        · exact h

theorem containsSeq_mono (pat a b : List Char) (h : containsSeq pat a = true) :
    containsSeq pat (a ++ b) = true := by
  rcases (containsSeq_iff pat a).mp h with ⟨s, t, rfl⟩
  exact (containsSeq_iff pat _).mpr ⟨s, t ++ b, by simp⟩

theorem drainChunks_flatten (chunks : List (List Char))
    (h : ∀ c ∈ chunks, c ≠ []) : drainChunks chunks = chunks.flatten := by
  induction chunks with
  | nil => rfl
  | cons c rest ih =>
    have hc : c.isEmpty = false := by
      cases c with
      | nil => exact absurd rfl (h [] (by simp))
      | cons a t => rfl
    rw [drainChunks, hc]
    simp only [Bool.false_eq_true, if_false, List.flatten_cons]
    rw [ih (fun x hx => h x (by simp [hx]))]

/-! ### Facts about the header rewriting -/

theorem rewriteHeaders_some (fl a : List Char) (rest : List (List Char)) :
    rewriteHeaders fl rest (some a)
      = fl :: authLine a :: rest.filter (fun l => !(isAuthLine l)) := rfl

theorem rewriteHeaders_none (fl : List Char) (rest : List (List Char)) :
    rewriteHeaders fl rest none
      = fl :: rest.filter (fun l => !(isAuthLine l)) := rfl

theorem isAuthLine_authLine (a : List Char) : isAuthLine (authLine a) = true := by
  unfold isAuthLine authLine
  rw [List.map_append]
  have h1 : "Proxy-Authorization: ".data.map Char.toLower
      = "proxy-authorization:".data ++ [' '] := by decide
  rw [h1, List.append_assoc]
  exact List.isPrefixOf_iff_prefix.mpr (List.prefix_append _ _)

theorem notAuth_of_mem_filter {l : List Char} {rest : List (List Char)}
    (h : l ∈ rest.filter (fun x => !(isAuthLine x))) : isAuthLine l = false := by
  have h2 := (List.mem_filter.mp h).2
  simpa using h2

theorem countP_filter_auth (rest : List (List Char)) :
    List.countP (fun l => isAuthLine l) (rest.filter (fun l => !(isAuthLine l))) = 0 := by
  rw [List.countP_eq_zero]
  intro a ha
  simp [notAuth_of_mem_filter ha]

theorem rewrite_some_countP (fl a : List Char) (rest : List (List Char))
    (hfl : isAuthLine fl = false) :
    List.countP (fun l => isAuthLine l) (rewriteHeaders fl rest (some a)) = 1 := by
  rw [rewriteHeaders_some]
  simp [List.countP_cons, hfl, isAuthLine_authLine, countP_filter_auth]

theorem rewrite_some_only (fl a : List Char) (rest : List (List Char)) :
    ∀ l ∈ rewriteHeaders fl rest (some a), isAuthLine l = true →
      l = authLine a ∨ l = fl := by
  intro l hl hauth
  rw [rewriteHeaders_some] at hl
  rcases List.mem_cons.mp hl with rfl | hl
  · exact Or.inr rfl
  rcases List.mem_cons.mp hl with rfl | hl
  · exact Or.inl rfl
  · exact absurd hauth (by simp [notAuth_of_mem_filter hl])

theorem rewrite_none_clean (fl : List Char) (rest : List (List Char))
    (hfl : isAuthLine fl = false) :
    ∀ l ∈ rewriteHeaders fl rest none, isAuthLine l = false := by
  intro l hl
  rw [rewriteHeaders_none] at hl
  rcases List.mem_cons.mp hl with rfl | hl
  · exact hfl
  · exact notAuth_of_mem_filter hl

/-! ### Claims about the Request Rewriter and the Credential Encoder -/

/-- C2: for every complete request head (whose request line is not itself a
`Proxy-Authorization` line) and every configured credential, the rewritten
request is the original request line, then exactly one
`Proxy-Authorization` header carrying the configured credential placed
immediately after the request line, then the remaining original header
lines with every case-insensitive `Proxy-Authorization` entry removed and
their relative order preserved (a `filter`), then the unchanged terminator
and body bytes. -/
theorem C2_rewrite_shape (fl : List Char) (rest : List (List Char))
    (body a : List Char) (hfl : isAuthLine fl = false) :
    rewriteHeaders fl rest (some a)
        = fl :: authLine a :: rest.filter (fun l => !(isAuthLine l))
      ∧ List.countP (fun l => isAuthLine l) (rewriteHeaders fl rest (some a)) = 1
      ∧ (∀ l ∈ rewriteHeaders fl rest (some a), isAuthLine l = true → l = authLine a)
      ∧ List.intercalate CRLF (rewriteHeaders fl rest (some a)) ++ TERM ++ body
          = List.intercalate CRLF
              (fl :: authLine a :: rest.filter (fun l => !(isAuthLine l)))
              ++ TERM ++ body := by
  refine ⟨rewriteHeaders_some fl a rest, rewrite_some_countP fl a rest hfl, ?_,
    by rw [rewriteHeaders_some]⟩
  intro l hl hauth
  rcases rewrite_some_only fl a rest l hl hauth with h | h
  · exact h
  · subst h
    exact absurd hauth (by simp [hfl])

/-- Witness for C2 at a concrete CONNECT head that already carries a
`Proxy-Authorization` header: the old value is gone, the new one is second. -/
theorem C2_witness :
    rewriteHeaders "CONNECT h:443 HTTP/1.1".data
        ["Proxy-Authorization: Basic old".data, "Host: h".data]
        (some "Basic new".data)
      = ["CONNECT h:443 HTTP/1.1".data, "Proxy-Authorization: Basic new".data,
          "Host: h".data] := by
  have h := (C2_rewrite_shape "CONNECT h:443 HTTP/1.1".data
      ["Proxy-Authorization: Basic old".data, "Host: h".data] [] "Basic new".data
      (by decide)).1
  rw [h]
  decide

/-- C3: any client-sent `Proxy-Authorization` header is removed by the
rewriting (used identically on the CONNECT and the plain branch) even when
no replacement credential is configured; the result never contains both a
client-supplied and an injected credential header, and contains none at
all when the credential is unset. -/
theorem C3_strip_always (fl : List Char) (rest : List (List Char))
    (auth : Option (List Char)) (hfl : isAuthLine fl = false) :
    (auth = none → ∀ l ∈ rewriteHeaders fl rest auth, isAuthLine l = false)
      ∧ ∀ a, auth = some a →
          List.countP (fun l => isAuthLine l) (rewriteHeaders fl rest auth) = 1
            ∧ ∀ l ∈ rewriteHeaders fl rest auth, isAuthLine l = true → l = authLine a := by
  constructor
  · rintro rfl
    exact rewrite_none_clean fl rest hfl
  · rintro a rfl
    refine ⟨rewrite_some_countP fl a rest hfl, ?_⟩
    intro l hl hauth
    rcases rewrite_some_only fl a rest l hl hauth with h | h
    · exact h
    · subst h
      exact absurd hauth (by simp [hfl])

/-- Witness for C3: with no credential configured, a surviving header of
the rewritten request is not a `Proxy-Authorization` header. -/
theorem C3_witness : isAuthLine "Host: h".data = false :=
  (C3_strip_always "GET / HTTP/1.1".data
      ["Proxy-Authorization: Basic x".data, "Host: h".data] none (by decide)).1
    rfl "Host: h".data (by decide)

/-- C9 counterexample: the username `""` is present (not absent), yet the
encoder yields `None` instead of `"Basic " ++ base64(":x")`, refuting the
claim's "for every present username u and password p" clause. -/
theorem C9_counterexample :
    ¬ (create_auth_header (some []) (some "x".data)
        = some ("Basic ".data ++ b64Encode (strBytes (([] : List Char) ++ ':' :: "x".data)))) := by
  decide

/-- C9 (amended): the encoder is total and deterministic; `encode(None, p)`
and `encode(u, None)` yield `None`, and for every present non-empty `u`
and `p` it yields exactly `"Basic "` followed by the base64 encoding of
`u:p`; in addition an empty-string username or password also yields
`None`. -/
theorem C9_amended :
    (∀ p, create_auth_header none p = none)
      ∧ (∀ u, create_auth_header u none = none)
      ∧ (∀ u p, u ≠ [] → p ≠ [] →
          create_auth_header (some u) (some p)
            = some ("Basic ".data ++ b64Encode (strBytes (u ++ ':' :: p))))
      ∧ (∀ p, create_auth_header (some []) (some p) = none)
      ∧ (∀ u, create_auth_header (some u) (some []) = none) := by
  refine ⟨fun p => rfl, fun u => ?_, fun u p hu hp => ?_, fun p => rfl, fun u => ?_⟩
  · cases u <;> rfl
  · have hu' : u.isEmpty = false := by
      cases u with
      | nil => exact absurd rfl hu
      | cons a t => rfl
    have hp' : p.isEmpty = false := by
      cases p with
      | nil => exact absurd rfl hp
      | cons a t => rfl
    simp [create_auth_header, hu', hp']
  · simp [create_auth_header]

/-- Witness for C9 (amended) at `u = "u"`, `p = "p"`: the encoder produces
the well-known value `Basic dTpw` (`dTpw` is the standard base64 of
`u:p`). -/
theorem C9_witness :
    create_auth_header (some "u".data) (some "p".data) = some "Basic dTpw".data := by
  have h := C9_amended.2.2.1 "u".data "p".data (by decide) (by decide)
  rw [h]
  decide

/-- C10: the encoder returns `None` when the username or the password is
the empty string (both are falsy in Python), so a target configured with
an empty-string credential component injects no `Proxy-Authorization`
header: every line of the rewritten request (whose request line is a real
request line) fails the `Proxy-Authorization` test. -/
theorem C10_empty_credentials (p fl : List Char) (rest : List (List Char))
    (hfl : isAuthLine fl = false) :
    create_auth_header (some []) (some p) = none
      ∧ create_auth_header (some p) (some []) = none
      ∧ ∀ l ∈ rewriteHeaders fl rest (create_auth_header (some []) (some p)),
          isAuthLine l = false := by
  have h1 : create_auth_header (some []) (some p) = none := rfl
  have h2 : create_auth_header (some p) (some []) = none := by
    simp [create_auth_header]
  refine ⟨h1, h2, ?_⟩
  rw [h1]
  exact rewrite_none_clean fl rest hfl

/-- Witness for C10 at a concrete empty-string username. -/
theorem C10_witness : create_auth_header (some []) (some "x".data) = none :=
  (C10_empty_credentials "x".data "GET / HTTP/1.1".data [] (by decide)).1

/-! ### Facts about the receive loops and the connection handler -/

theorem readUntilTerm_stop (chunks : List (List Char)) (acc : List Char)
    (h : containsSeq TERM acc = true) : readUntilTerm chunks acc = (acc, chunks) := by
  rw [readUntilTerm.eq_def]
  simp [h]

theorem readUntilTerm_nil (acc : List Char) : readUntilTerm [] acc = (acc, []) := by
  rw [readUntilTerm.eq_def]
  split <;> rfl

theorem readUntilTerm_cons_step (c : List Char) (rest : List (List Char))
    (acc : List Char) (hacc : containsSeq TERM acc = false) (hc : c.isEmpty = false) :
    readUntilTerm (c :: rest) acc = readUntilTerm rest (acc ++ c) := by
  rw [readUntilTerm.eq_def]
  simp [hacc, hc]

theorem readUntilTerm_single (r : List Char) (hr : r ≠ []) :
    readUntilTerm [r] [] = (r, []) := by
  have hre : r.isEmpty = false := by
    cases r with
    | nil => exact absurd rfl hr
    | cons a t => rfl
  rw [readUntilTerm_cons_step r [] [] (by decide) hre, List.nil_append,
    readUntilTerm_nil]

theorem readUntilTerm_no_term (chunks : List (List Char)) :
    ∀ acc, (∀ c ∈ chunks, c ≠ []) →
      containsSeq TERM (acc ++ chunks.flatten) = false →
      readUntilTerm chunks acc = (acc ++ chunks.flatten, []) := by
  induction chunks with
  | nil =>
    intro acc _ h
    simpa using readUntilTerm_nil acc
  | cons c rest ih =>
    intro acc hne h
    have hcne : c ≠ [] := hne c (by simp)
    have hc : c.isEmpty = false := by
      cases c with
      | nil => exact absurd rfl hcne
      | cons a t => rfl
    have hacc : containsSeq TERM acc = false := by
      cases hct : containsSeq TERM acc with
      | false => rfl
      | true =>
        have hmono := containsSeq_mono TERM acc ((c :: rest).flatten) hct
        rw [h] at hmono
        exact absurd hmono (by simp)
    rw [readUntilTerm_cons_step c rest acc hacc hc,
      ih (acc ++ c) (fun x hx => hne x (by simp [hx]))
        (by simpa [List.append_assoc] using h)]
    simp [List.append_assoc]

/-- The status token is always an infix of its status line. -/
theorem statusTok_infix (l : List Char) : statusTokenOf l <:+: l := by
  unfold statusTokenOf
  have hp : ((l.dropWhile (fun c => c != ' ')).drop 1).takeWhile (fun c => c != ' ')
      <+: (l.dropWhile (fun c => c != ' ')).drop 1 := List.takeWhile_prefix _
  have hs1 : (l.dropWhile (fun c => c != ' ')).drop 1 <:+ l.dropWhile (fun c => c != ' ') :=
    List.drop_suffix _ _
  have hs2 : l.dropWhile (fun c => c != ' ') <:+ l := List.dropWhile_suffix _
  exact hp.isInfix.trans (hs1.trans hs2).isInfix

/-- The CONNECT branch of `handle_client`, characterised by the two
branch conditions. -/
theorem handle_client_connect (cc uc : List (List Char)) (auth : Option (List Char))
    (h1 : containsSeq TERM (readUntilTerm cc []).1 = true)
    (h2 : "CONNECT".data.isPrefixOf (requestFirstLine cc) = true) :
    handle_client cc uc auth
      = if containsSeq "200".data (takeUntilCRLF (readUntilTerm uc []).1) then
          { sentToUpstream := rewrittenRequestOf cc auth ++ forward_data (readUntilTerm cc []).2
            sentToClient := (readUntilTerm uc []).1 ++ forward_data (readUntilTerm uc []).2
            clientCloses := 2
            upstreamCloses := 2
            enteredRelay := true }
        else
          { sentToUpstream := rewrittenRequestOf cc auth
            sentToClient := (readUntilTerm uc []).1
            clientCloses := 1
            upstreamCloses := 1
            enteredRelay := false } := by
  simp only [requestFirstLine] at h2
  simp only [handle_client, rewrittenRequestOf, requestFirstLine, h1, h2, if_true]

/-- The plain (non-CONNECT) branch of `handle_client`, characterised by
the two branch conditions. -/
theorem handle_client_plain (cc uc : List (List Char)) (auth : Option (List Char))
    (h1 : containsSeq TERM (readUntilTerm cc []).1 = true)
    (h2 : "CONNECT".data.isPrefixOf (requestFirstLine cc) = false) :
    handle_client cc uc auth
      = { sentToUpstream := rewrittenRequestOf cc auth
          sentToClient := drainChunks uc
          clientCloses := 1
          upstreamCloses := 1
          enteredRelay := false } := by
  simp only [requestFirstLine] at h2
  simp only [handle_client, rewrittenRequestOf, requestFirstLine, h1, h2,
    Bool.false_eq_true, if_true, if_false]

/-! ### Claims about the Connection Handler -/

/-- C1 counterexample: the upstream answers with status code 407 whose
status line happens to contain the digits `200` (reason text `x200`); the
numeric status code field is 407, not 200, yet the handler enters relay
mode, refuting "relay if and only if the numeric status code field equals
200". -/
theorem C1_counterexample :
    (handle_client ["CONNECT example.com:443 HTTP/1.1\r\n\r\n".data]
        ["HTTP/1.1 407 x200\r\n\r\n".data] none).enteredRelay = true
      ∧ specStatusCode (takeUntilCRLF
          (readUntilTerm ["HTTP/1.1 407 x200\r\n\r\n".data] []).1) = some 407 := by
  decide

/-- C1 (amended): for every CONNECT request, the handler enters relay mode
if and only if the first line of the upstream response head contains the
byte substring `200` (in particular a status token equal to `200` always
enters relay); when it does not, both sockets are closed once and the
response head is still relayed to the client. -/
theorem C1_relay_decision (cc uc : List (List Char)) (auth : Option (List Char))
    (h1 : containsSeq TERM (readUntilTerm cc []).1 = true)
    (h2 : "CONNECT".data.isPrefixOf (requestFirstLine cc) = true) :
    ((handle_client cc uc auth).enteredRelay
        = containsSeq "200".data (takeUntilCRLF (readUntilTerm uc []).1))
      ∧ (statusTokenOf (takeUntilCRLF (readUntilTerm uc []).1) = "200".data →
          (handle_client cc uc auth).enteredRelay = true)
      ∧ ((handle_client cc uc auth).enteredRelay = false →
          (handle_client cc uc auth).clientCloses = 1
            ∧ (handle_client cc uc auth).upstreamCloses = 1
            ∧ (handle_client cc uc auth).sentToClient = (readUntilTerm uc []).1) := by
  have hmain := handle_client_connect cc uc auth h1 h2
  refine ⟨?_, ?_, ?_⟩
  · rw [hmain]
    cases hb : containsSeq "200".data (takeUntilCRLF (readUntilTerm uc []).1) <;>
      simp [hb]
  · intro hst
    have hin : containsSeq "200".data (takeUntilCRLF (readUntilTerm uc []).1) = true := by
      apply (containsSeq_iff _ _).mpr
      have h3 := statusTok_infix (takeUntilCRLF (readUntilTerm uc []).1)
      rw [hst] at h3
      exact h3
    rw [hmain]
    simp [hin]
  · intro hrel
    rw [hmain] at hrel ⊢
    cases hb : containsSeq "200".data (takeUntilCRLF (readUntilTerm uc []).1) with
    | false => simp [hb]
    | true => simp [hb] at hrel


/-- Witness for C1 (amended) at a concrete 407 rejection: the handler does
not enter relay mode and closes the client socket once. -/
theorem C1_witness :
    (handle_client ["CONNECT h:443 HTTP/1.1\r\n\r\n".data]
        ["HTTP/1.1 407 Proxy Authentication Required\r\n\r\n".data] none).clientCloses
      = 1 := by
  have h := C1_relay_decision ["CONNECT h:443 HTTP/1.1\r\n\r\n".data]
      ["HTTP/1.1 407 Proxy Authentication Required\r\n\r\n".data] none
      (by decide) (by decide)
  exact (h.2.2 (h.1.trans (by decide))).1

/-- C4 counterexample: the upstream closes after sending only
`HTTP/1.1 200 OK\r\n` (no end-of-headers terminator); the handler
nevertheless forwards the partial bytes to the client and even enters
relay mode, refuting "closes without forwarding the partial response and
without entering relay mode". -/
theorem C4_counterexample :
    (handle_client ["CONNECT example.com:443 HTTP/1.1\r\n\r\n".data]
        ["HTTP/1.1 200 OK\r\n".data] none).sentToClient = "HTTP/1.1 200 OK\r\n".data
      ∧ (handle_client ["CONNECT example.com:443 HTTP/1.1\r\n\r\n".data]
          ["HTTP/1.1 200 OK\r\n".data] none).enteredRelay = true := by
  decide

/-- C4 (amended): when the upstream closes before an end-of-headers
terminator appears in its response to a CONNECT, the handler forwards the
partial response bytes to the client anyway, and still applies the `200`
substring check to their first line to decide whether to enter relay
mode. -/
theorem C4_partial_response_forwarded (cc uc : List (List Char))
    (auth : Option (List Char))
    (h1 : containsSeq TERM (readUntilTerm cc []).1 = true)
    (h2 : "CONNECT".data.isPrefixOf (requestFirstLine cc) = true)
    (h3 : ∀ c ∈ uc, c ≠ [])
    (h4 : containsSeq TERM uc.flatten = false) :
    (handle_client cc uc auth).sentToClient = uc.flatten
      ∧ (handle_client cc uc auth).enteredRelay
          = containsSeq "200".data (takeUntilCRLF uc.flatten) := by
  have hr : readUntilTerm uc [] = (uc.flatten, []) := by
    simpa using readUntilTerm_no_term uc [] h3 (by simpa using h4)
  have hmain := handle_client_connect cc uc auth h1 h2
  rw [hr] at hmain
  rw [hmain]
  cases hb : containsSeq "200".data (takeUntilCRLF uc.flatten) <;>
    simp [hb, forward_data, drainChunks]

/-- Witness for C4 (amended) at a concrete truncated 503 response: the
partial bytes are forwarded verbatim. -/
theorem C4_witness :
    (handle_client ["CONNECT h2.example:443 HTTP/1.1\r\n\r\n".data]
        ["HTTP/1.1 503 Service Unavailable\r\n".data] none).sentToClient
      = "HTTP/1.1 503 Service Unavailable\r\n".data := by
  have h := C4_partial_response_forwarded
      ["CONNECT h2.example:443 HTTP/1.1\r\n\r\n".data]
      ["HTTP/1.1 503 Service Unavailable\r\n".data] none
      (by decide) (by decide) (by decide) (by decide)
  exact h.1.trans (by decide)

/-- C5 counterexample: on a successful CONNECT followed by relay
completion, each socket is closed twice (once by each `forward_data`
thread's cleanup), refuting "both sockets are closed exactly once". -/
theorem C5_counterexample :
    (handle_client ["CONNECT h:443 HTTP/1.1\r\nHost: h\r\n\r\n".data]
        ["HTTP/1.1 200 Connection Established\r\n\r\n".data] none).clientCloses = 2
      ∧ (handle_client ["CONNECT h:443 HTTP/1.1\r\nHost: h\r\n\r\n".data]
          ["HTTP/1.1 200 Connection Established\r\n\r\n".data] none).upstreamCloses
        = 2 := by
  decide

/-- C5 (amended): on every completed-request path of the exception-free
model, the plain-forward and CONNECT-rejection paths close each socket
exactly once, while the CONNECT relay path closes each socket exactly
twice (once per relay direction). -/
theorem C5_close_counts (cc uc : List (List Char)) (auth : Option (List Char))
    (h1 : containsSeq TERM (readUntilTerm cc []).1 = true) :
    ((handle_client cc uc auth).enteredRelay = true →
        (handle_client cc uc auth).clientCloses = 2
          ∧ (handle_client cc uc auth).upstreamCloses = 2)
      ∧ ((handle_client cc uc auth).enteredRelay = false →
          (handle_client cc uc auth).clientCloses = 1
            ∧ (handle_client cc uc auth).upstreamCloses = 1) := by
  cases hc : "CONNECT".data.isPrefixOf (requestFirstLine cc) with
  | false =>
    rw [handle_client_plain cc uc auth h1 hc]
    simp
  | true =>
    rw [handle_client_connect cc uc auth h1 hc]
    cases hb : containsSeq "200".data (takeUntilCRLF (readUntilTerm uc []).1) <;>
      simp [hb]

/-- Witness for C5 (amended) at a concrete plain request: one close per
socket. -/
theorem C5_witness :
    (handle_client ["GET http://e.com/ HTTP/1.1\r\n\r\n".data] ["ok".data]
        none).clientCloses = 1 := by
  have h := C5_close_counts ["GET http://e.com/ HTTP/1.1\r\n\r\n".data] ["ok".data]
      none (by decide)
  exact (h.2 (by decide)).1

/-- C7: for every plain (non-CONNECT) request with no body, the handler
streams the upstream's raw response bytes to the client unchanged and in
order until the upstream closes, and then closes both ends once. -/
theorem C7_plain_roundtrip (head : List Char) (uc : List (List Char))
    (auth : Option (List Char))
    (h1 : splitAtTerm (head ++ TERM) = (head, []))
    (h2 : "CONNECT".data.isPrefixOf ((splitOnCRLF head).headD []) = false)
    (h3 : ∀ c ∈ uc, c ≠ []) :
    (handle_client [head ++ TERM] uc auth).sentToClient = uc.flatten
      ∧ (handle_client [head ++ TERM] uc auth).clientCloses = 1
      ∧ (handle_client [head ++ TERM] uc auth).upstreamCloses = 1
      ∧ (handle_client [head ++ TERM] uc auth).enteredRelay = false := by
  have hterm : containsSeq TERM (head ++ TERM) = true :=
    (containsSeq_iff _ _).mpr (List.suffix_append head TERM).isInfix
  have hne : head ++ TERM ≠ [] := by simp [TERM]
  have hread : readUntilTerm [head ++ TERM] [] = (head ++ TERM, []) :=
    readUntilTerm_single _ hne
  have h1' : containsSeq TERM (readUntilTerm [head ++ TERM] []).1 = true := by
    rw [hread]
    exact hterm
  have h2' : "CONNECT".data.isPrefixOf (requestFirstLine [head ++ TERM]) = false := by
    unfold requestFirstLine
    rw [hread]
    simpa [h1] using h2
  rw [handle_client_plain _ uc auth h1' h2']
  exact ⟨drainChunks_flatten uc h3, rfl, rfl, rfl⟩

/-- Witness for C7 at a concrete GET request and a chunked upstream
response. -/
theorem C7_witness :
    (handle_client ["GET http://e.com/a HTTP/1.1\r\nHost: e.com".data ++ TERM]
        ["HTTP/1.1 200 OK\r\n\r\nhe".data, "llo".data]
        (some "Basic dTpw".data)).sentToClient
      = "HTTP/1.1 200 OK\r\n\r\nhello".data := by
  have h := C7_plain_roundtrip "GET http://e.com/a HTTP/1.1\r\nHost: e.com".data
      ["HTTP/1.1 200 OK\r\n\r\nhe".data, "llo".data] (some "Basic dTpw".data)
      (by decide) (by decide) (by decide)
  exact h.1.trans (by decide)

/-! ### Facts about the URL parsing -/

theorem takeWhile_eq_self (p : Char → Bool) (l : List Char)
    (h : ∀ a ∈ l, p a = true) : l.takeWhile p = l := by
  induction l with
  | nil => rfl
  | cons c t ih =>
    rw [List.takeWhile_cons, h c (by simp)]
    simp [ih (fun a ha => h a (by simp [ha]))]

theorem takeWhile_append_stop (p : Char → Bool) (l1 : List Char) (c : Char)
    (l2 : List Char) (h : ∀ a ∈ l1, p a = true) (hc : p c = false) :
    (l1 ++ c :: l2).takeWhile p = l1 := by
  rw [List.takeWhile_append_of_pos (by simpa using h), List.takeWhile_cons]
  simp [hc]

theorem dropWhile_append_stop (p : Char → Bool) (l1 : List Char) (c : Char)
    (l2 : List Char) (h : ∀ a ∈ l1, p a = true) (hc : p c = false) :
    (l1 ++ c :: l2).dropWhile p = c :: l2 := by
  rw [List.dropWhile_append_of_pos (by simpa using h), List.dropWhile_cons]
  simp [hc]

theorem partitionAt_of_not_mem (ch : Char) (l : List Char)
    (h : ∀ a ∈ l, a ≠ ch) : partitionAt ch l = (l, none) := by
  have ht : l.takeWhile (fun c => c != ch) = l :=
    takeWhile_eq_self _ _ (fun a ha => by simpa using h a ha)
  simp [partitionAt, ht]

theorem partitionAt_append (ch : Char) (l1 l2 : List Char)
    (h : ∀ a ∈ l1, a ≠ ch) : partitionAt ch (l1 ++ ch :: l2) = (l1, some l2) := by
  have ht : (l1 ++ ch :: l2).takeWhile (fun c => c != ch) = l1 :=
    takeWhile_append_stop _ _ _ _ (fun a ha => by simpa using h a ha) (by simp)
  have hd : (l1 ++ ch :: l2).drop (l1.length + 1) = l2 := by
    rw [show l1 ++ ch :: l2 = (l1 ++ [ch]) ++ l2 by simp]
    exact List.drop_left' (by simp)
  have hlen : ¬ l1.length = (l1 ++ ch :: l2).length := by
    simp only [List.length_append, List.length_cons]
    omega
  simp [partitionAt, ht, hd, hlen]

theorem rpartitionAt_of_not_mem (ch : Char) (l : List Char)
    (h : ∀ a ∈ l, a ≠ ch) : rpartitionAt ch l = (none, l) := by
  have ht : l.reverse.takeWhile (fun c => c != ch) = l.reverse :=
    takeWhile_eq_self _ _ (fun a ha => by simpa using h a (List.mem_reverse.mp ha))
  simp [rpartitionAt, ht]

theorem rpartitionAt_append (ch : Char) (l1 l2 : List Char)
    (h : ∀ a ∈ l2, a ≠ ch) : rpartitionAt ch (l1 ++ ch :: l2) = (some l1, l2) := by
  have hrev : (l1 ++ ch :: l2).reverse = l2.reverse ++ ch :: l1.reverse := by simp
  have ht : (l2.reverse ++ ch :: l1.reverse).takeWhile (fun c => c != ch) = l2.reverse :=
    takeWhile_append_stop _ _ _ _
      (fun a ha => by simpa using h a (List.mem_reverse.mp ha)) (by simp)
  have hd : (l2.reverse ++ ch :: l1.reverse).drop (l2.length + 1) = l1.reverse := by
    rw [show l2.reverse ++ ch :: l1.reverse = (l2.reverse ++ [ch]) ++ l1.reverse by simp]
    exact List.drop_left' (by simp)
  have hlen : ¬ l2.reverse.length = (l2.reverse ++ ch :: l1.reverse).length := by
    simp only [List.length_append, List.length_reverse, List.length_cons]
    omega
  simp [rpartitionAt, hrev, ht, hd, hlen]

theorem schemeChar_bne_colon (a : Char) (h : isSchemeChar a = true) :
    (a != ':') = true := by
  rcases eq_or_ne a ':' with rfl | hne
  · exact absurd h (by decide)
  · simpa using hne

theorem splitScheme_append (s rest : List Char) (h1 : s ≠ [])
    (h2 : s.all isSchemeChar = true) (h3 : (s.headD ' ').isAlpha = true) :
    splitScheme (s ++ ':' :: rest) = rest := by
  cases s with
  | nil => exact absurd rfl h1
  | cons c0 t0 =>
    have hall : ∀ a ∈ c0 :: t0, (a != ':') = true := fun a ha =>
      schemeChar_bne_colon a (List.all_eq_true.mp h2 a ha)
    have hdw : ((c0 :: t0) ++ ':' :: rest).dropWhile (fun c => c != ':')
        = ':' :: rest := dropWhile_append_stop _ _ _ _ hall (by simp)
    have htw : ((c0 :: t0) ++ ':' :: rest).takeWhile (fun c => c != ':')
        = c0 :: t0 := takeWhile_append_stop _ _ _ _ hall (by simp)
    have hc : c0.isAlpha = true := by simpa using h3
    unfold splitScheme
    rw [hdw, htw]
    simp [h2, hc]

theorem extractNetloc_slashes (nl : List Char)
    (h : ∀ a ∈ nl, netlocOkChar a = true) :
    extractNetloc ('/' :: '/' :: nl) = nl := by
  simp only [extractNetloc]
  exact takeWhile_eq_self _ _ h

theorem hostChar_props (a : Char) (h : hostChar a = true) :
    netlocOkChar a = true ∧ a ≠ ':' ∧ a ≠ '@' ∧ a ≠ '[' := by
  simp only [hostChar, Bool.and_eq_true, bne_iff_ne, ne_eq] at h
  exact ⟨h.1.1.1, h.1.1.2, h.1.2, h.2⟩

theorem userChar_props (a : Char) (h : userChar a = true) :
    netlocOkChar a = true ∧ a ≠ ':' ∧ a ≠ '@' := by
  simp only [userChar, Bool.and_eq_true, bne_iff_ne, ne_eq] at h
  exact ⟨h.1.1, h.1.2, h.2⟩

theorem passChar_props (a : Char) (h : passChar a = true) :
    netlocOkChar a = true ∧ a ≠ '@' := by
  simp only [passChar, Bool.and_eq_true, bne_iff_ne, ne_eq] at h
  exact ⟨h.1, h.2⟩

theorem digit_netloc_props (a : Char) (h : a.isDigit = true) :
    netlocOkChar a = true ∧ a ≠ ':' ∧ a ≠ '@' := by
  have hslash : a ≠ '/' := by rintro rfl; exact absurd h (by decide)
  have hq : a ≠ '?' := by rintro rfl; exact absurd h (by decide)
  have hhash : a ≠ '#' := by rintro rfl; exact absurd h (by decide)
  have hco : a ≠ ':' := by rintro rfl; exact absurd h (by decide)
  have hat : a ≠ '@' := by rintro rfl; exact absurd h (by decide)
  refine ⟨?_, hco, hat⟩
  simp only [netlocOkChar, Bool.and_eq_true, bne_iff_ne, ne_eq]
  exact ⟨⟨hslash, hq⟩, hhash⟩

theorem parsePort_digits (ps : List Char) (h1 : ps ≠ [])
    (h2 : ps.all Char.isDigit = true) (h3 : digitsVal ps ≤ 65535) :
    parsePort ps = Except.ok (digitsVal ps) := by
  have hie : ps.isEmpty = false := by
    cases ps with
    | nil => exact absurd rfl h1
    | cons a t => rfl
  simp [parsePort, h2, hie, h3]

theorem mkNetloc_ok (cred : Option (List Char × Option (List Char)))
    (h : List Char) (po : Option (List Char))
    (hh : h.all hostChar = true)
    (hcred : ∀ u pw, cred = some (u, pw) →
        u.all userChar = true ∧ ∀ p, pw = some p → p.all passChar = true)
    (hpo : ∀ ps, po = some ps → ps.all Char.isDigit = true) :
    ∀ a ∈ mkUserinfo cred ++ mkHostPort h po, netlocOkChar a = true := by
  intro a ha
  rcases List.mem_append.mp ha with hui | hhp
  · cases cred with
    | none => simp [mkUserinfo] at hui
    | some up =>
      obtain ⟨u, pw⟩ := up
      obtain ⟨hu, hpw⟩ := hcred u pw rfl
      cases pw with
      | none =>
        rcases List.mem_append.mp hui with hui | hui
        · exact (userChar_props a (List.all_eq_true.mp hu a hui)).1
        · rw [List.mem_singleton] at hui
          subst hui
          decide
      | some p =>
        have hp := hpw p rfl
        rcases List.mem_append.mp hui with hui | hui
        · rcases List.mem_append.mp hui with hui | hui
          · exact (userChar_props a (List.all_eq_true.mp hu a hui)).1
          · rcases List.mem_cons.mp hui with rfl | hui
            · decide
            · exact (passChar_props a (List.all_eq_true.mp hp a hui)).1
        · rw [List.mem_singleton] at hui
          subst hui
          decide
  · cases po with
    | none =>
      simp only [mkHostPort, List.append_nil] at hhp
      exact (hostChar_props a (List.all_eq_true.mp hh a hhp)).1
    | some ps =>
      have hps := hpo ps rfl
      rcases List.mem_append.mp hhp with hhp | hhp
      · exact (hostChar_props a (List.all_eq_true.mp hh a hhp)).1
      · rcases List.mem_cons.mp hhp with rfl | hhp
        · decide
        · exact (digit_netloc_props a (List.all_eq_true.mp hps a hhp)).1

/-! ### Claims about the Proxy URL Resolver -/

/-- C6 counterexample: the non-empty input `foo` has no host under any
reading, yet the resolver returns a target (with the host unset) instead
of failing, refuting "fails whenever the input is empty, unparseable, or
lacks a host". -/
theorem C6_counterexample :
    parse_proxy_url "foo".data
      = Except.ok (some
          { host := none
            port := 3128
            username := none
            password := none }) := by
  decide

/-- C6 (amended): the resolver returns `None` exactly when the input
string is empty; any non-empty input yields either a target (possibly
with no host) or a `ValueError` from an invalid port component, never the
`None` that `main` treats as a configuration failure. -/
theorem C6_no_failure_without_host (url : List Char) :
    parse_proxy_url url = Except.ok none ↔ url = [] := by
  constructor
  · intro h
    cases url with
    | nil => rfl
    | cons c t =>
      exfalso
      simp only [parse_proxy_url, List.isEmpty_cons, Bool.false_eq_true,
        if_false] at h
      cases hp : portOf (c :: t) with
      | error e =>
        rw [hp] at h
        exact absurd h (by simp)
      | ok p =>
        rw [hp] at h
        simp at h
  · rintro rfl
    rfl

/-- Witness for C6 (amended) at the empty string. -/
theorem C6_witness : parse_proxy_url [] = Except.ok none :=
  (C6_no_failure_without_host []).mpr rfl

/-- C8 counterexample: for `http://EXAMPLE:0` (host `EXAMPLE`, port `0`)
the resolver returns the lowercased host `example` and the default port
3128 (because `parsed.port or 3128` treats port 0 as falsy), not
`{host: EXAMPLE, port: 0}` as the claim requires. -/
theorem C8_counterexample :
    parse_proxy_url "http://EXAMPLE:0".data
        = Except.ok (some
            { host := some "example".data
              port := 3128
              username := none
              password := none })
      ∧ some "example".data ≠ some "EXAMPLE".data ∧ (3128 : Nat) ≠ 0 := by
  decide

/-- C8 (amended): for every URL of the form
`scheme://[user[:pass]@]host[:port]` (with the components drawn from the
grammar's character sets and a valid port number), the resolver returns
exactly the components, except that the host is returned lowercased and
the port defaults to 3128 both when absent and when it parses to 0;
absent credentials are returned unset. -/
theorem C8_resolver_roundtrip (s h : List Char)
    (cred : Option (List Char × Option (List Char))) (po : Option (List Char))
    (hs1 : s ≠ []) (hs2 : s.all isSchemeChar = true)
    (hs3 : (s.headD ' ').isAlpha = true)
    (hh1 : h ≠ []) (hh2 : h.all hostChar = true)
    (hcred : ∀ u pw, cred = some (u, pw) →
        u.all userChar = true ∧ ∀ p, pw = some p → p.all passChar = true)
    (hpo : ∀ ps, po = some ps →
        ps ≠ [] ∧ ps.all Char.isDigit = true ∧ digitsVal ps ≤ 65535) :
    parse_proxy_url (mkProxyUrl s cred h po)
      = Except.ok (some {
          host := some (h.map Char.toLower)
          port := match po with
            | none => 3128
            | some ps => if digitsVal ps = 0 then 3128 else digitsVal ps
          username := cred.map Prod.fst
          password := cred.bind Prod.snd }) := by
  have hnet : netlocOf (mkProxyUrl s cred h po)
      = mkUserinfo cred ++ mkHostPort h po := by
    unfold netlocOf mkProxyUrl
    rw [splitScheme_append s _ hs1 hs2 hs3]
    exact extractNetloc_slashes _
      (mkNetloc_ok cred h po hh2 hcred (fun ps hps => (hpo ps hps).2.1))
  have hhp_noat : ∀ a ∈ mkHostPort h po, a ≠ '@' := by
    intro a ha
    cases po with
    | none =>
      simp only [mkHostPort, List.append_nil] at ha
      exact (hostChar_props a (List.all_eq_true.mp hh2 a ha)).2.2.1
    | some ps =>
      rcases List.mem_append.mp ha with ha | ha
      · exact (hostChar_props a (List.all_eq_true.mp hh2 a ha)).2.2.1
      · rcases List.mem_cons.mp ha with rfl | ha
        · decide
        · exact (digit_netloc_props a
            (List.all_eq_true.mp ((hpo ps rfl).2.1) a ha)).2.2
  have hsplit : rpartitionAt '@' (mkUserinfo cred ++ mkHostPort h po)
      = ((match cred with
          | none => none
          | some (u, none) => some u
          | some (u, some pw) => some (u ++ ':' :: pw)), mkHostPort h po) := by
    cases cred with
    | none =>
      simp only [mkUserinfo, List.nil_append]
      exact rpartitionAt_of_not_mem '@' _ hhp_noat
    | some up =>
      obtain ⟨u, pw⟩ := up
      cases pw with
      | none =>
        rw [show mkUserinfo (some (u, none)) ++ mkHostPort h po
            = u ++ '@' :: mkHostPort h po by simp [mkUserinfo]]
        exact rpartitionAt_append '@' u _ hhp_noat
      | some p =>
        rw [show mkUserinfo (some (u, some p)) ++ mkHostPort h po
            = (u ++ ':' :: p) ++ '@' :: mkHostPort h po by simp [mkUserinfo]]
        exact rpartitionAt_append '@' (u ++ ':' :: p) _ hhp_noat
  have hhostinfo : hostinfoOf (mkProxyUrl s cred h po) = mkHostPort h po := by
    unfold hostinfoOf
    rw [hnet, hsplit]
  have hhno : ∀ a ∈ h, a ≠ ':' := fun a ha =>
    (hostChar_props a (List.all_eq_true.mp hh2 a ha)).2.1
  have hpartHP : partitionAt ':' (mkHostPort h po)
      = (h, match po with | none => none | some ps => some ps) := by
    cases po with
    | none =>
      simp only [mkHostPort, List.append_nil]
      exact partitionAt_of_not_mem ':' h hhno
    | some ps =>
      exact partitionAt_append ':' h ps hhno
  have hhost : hostnameOf (mkProxyUrl s cred h po) = some (h.map Char.toLower) := by
    unfold hostnameOf
    rw [hhostinfo, hpartHP]
    have hie : h.isEmpty = false := by
      cases h with
      | nil => exact absurd rfl hh1
      | cons a t => rfl
    simp [hie]
  have hport : portOf (mkProxyUrl s cred h po)
      = Except.ok (match po with
          | none => none
          | some ps => some (digitsVal ps)) := by
    unfold portOf rawPortOf
    rw [hhostinfo, hpartHP]
    cases po with
    | none => rfl
    | some ps =>
      obtain ⟨hps1, hps2, hps3⟩ := hpo ps rfl
      cases ps with
      | nil => exact absurd rfl hps1
      | cons c t =>
        simp [parsePort_digits (c :: t) hps1 hps2 hps3, Except.map]
  have huser : userPassOf (mkProxyUrl s cred h po)
      = (cred.map Prod.fst, cred.bind Prod.snd) := by
    unfold userPassOf
    rw [hnet, hsplit]
    cases cred with
    | none => rfl
    | some up =>
      obtain ⟨u, pw⟩ := up
      cases pw with
      | none =>
        have hu := (hcred u none rfl).1
        have hnocolon : ∀ a ∈ u, a ≠ ':' := fun a ha =>
          (userChar_props a (List.all_eq_true.mp hu a ha)).2.1
        simp [partitionAt_of_not_mem ':' u hnocolon]
      | some p =>
        have hu := (hcred u (some p) rfl).1
        have hnocolon : ∀ a ∈ u, a ≠ ':' := fun a ha =>
          (userChar_props a (List.all_eq_true.mp hu a ha)).2.1
        simp [partitionAt_append ':' u p hnocolon]
  have hie : (mkProxyUrl s cred h po).isEmpty = false := by
    unfold mkProxyUrl
    cases s with
    | nil => rfl
    | cons a t => rfl
  simp only [parse_proxy_url, hie, Bool.false_eq_true, if_false, hport, hhost,
    huser]
  cases po with
  | none => rfl
  | some ps =>
    cases hv : digitsVal ps with
    | zero => simp [hv]
    | succ n => simp [hv]

/-- Witness for C8 (amended) at a concrete URL with credentials, a
mixed-case host and an explicit port. -/
theorem C8_witness :
    parse_proxy_url (mkProxyUrl "http".data
        (some ("user".data, some "pass".data)) "Proxy.Example.com".data
        (some "8080".data))
      = Except.ok (some
          { host := some "proxy.example.com".data
            port := 8080
            username := some "user".data
            password := some "pass".data }) := by
  have h := C8_resolver_roundtrip "http".data "Proxy.Example.com".data
      (some ("user".data, some "pass".data)) (some "8080".data)
      (by decide) (by decide) (by decide) (by decide) (by decide)
      (by
        intro u pw hup
        injection hup with hpair
        injection hpair with h1 h2
        subst h1
        subst h2
        refine ⟨by decide, ?_⟩
        intro p hp
        injection hp with h3
        subst h3
        decide)
      (by
        intro ps hps
        injection hps with h4
        subst h4
        exact ⟨by decide, by decide, by decide⟩)
  exact h.trans (by decide)

end AuthProxy
